import Mathlib

/-!
Verification development for the module-level definition and export
resolution subsystem (`export/definitions.rs`).

The embedding translates the Rust source into Lean:
`DefinitionStyle`, `Definitions`, `DunderAllEntry` and the
`DefinitionsBuilder` statement walker.  External capabilities that the
source delegates to (the three-valued condition evaluator
`Config::evaluate_bool_opt`, the relative-module resolver
`ModuleName::new_maybe_relative`, and the generic lvalue visitor
`Ast::expr_lvalue`) are modelled as parameters or from the
specification, as noted on each definition.
-/

/-- Source location of a token, mirroring `TextRange` (start/end offsets). -/
structure TextRange where
  start : Nat
  stop : Nat
deriving DecidableEq, Repr, Inhabited

/-- An identifier token: its text and its range, mirroring ruff `Identifier`. -/
structure Identifier where
  id : String
  range : TextRange
deriving DecidableEq, Repr

/-- An import alias clause `name [as asname]`, mirroring ruff `Alias`. -/
structure ImportAlias where
  name : Identifier
  asname : Option Identifier
deriving DecidableEq, Repr

/-- The text of the special export-list variable, mirroring `dunder::ALL`. -/
def dunderALL : String := "__all__"

/-- The alias text that ruff gives a wildcard clause `from m import *`. -/
def starName : String := "*"

/-- Leading character of private names. -/
def underscoreChar : Char := '_'

/-- Separator of dotted module paths. -/
def dotChar : Char := '.'

/-- Mirrors `name.starts_with('_')` over the character data of the name. -/
def startsWithUnderscore (s : String) : Bool :=
  match s.data with
  | [] => false
  | c :: _ => c == underscoreChar

/-- How a name is defined, mirroring the Rust enum `DefinitionStyle`.
The derived Rust `Ord` is declaration order:
`Local < ImportAs < ImportAsEq < Import < ImportModule`. -/
inductive DefinitionStyle where
  | Local
  | ImportAs
  | ImportAsEq
  | Import
  | ImportModule
deriving DecidableEq, Repr

/-- Rank of a `DefinitionStyle` in the Rust derived `Ord` (declaration order). -/
def DefinitionStyle.rank : DefinitionStyle → Nat
  | .Local => 0
  | .ImportAs => 1
  | .ImportAsEq => 2
  | .Import => 3
  | .ImportModule => 4

/-- Mirrors `cmp::min` on `DefinitionStyle` under the derived declaration order. -/
def styleMin (a b : DefinitionStyle) : DefinitionStyle :=
  if a.rank ≤ b.rank then a else b

/-- One symbolic operation of the export log, mirroring `DunderAllEntry`. -/
inductive DunderAllEntry where
  | Name (range : TextRange) (name : String)
  | Module (range : TextRange) (module : String)
  | Remove (range : TextRange) (name : String)
deriving DecidableEq, Repr

/-- Expressions, restricted to the shapes the subsystem inspects; every
other shape is `other` (the source treats them by a catch-all arm too). -/
inductive Expr where
  | name (range : TextRange) (id : String)
  | stringLit (range : TextRange) (value : String)
  | list (elts : List Expr)
  | tuple (elts : List Expr)
  | attribute (value : Expr) (attr : String)
  | call (func : Expr) (args : List Expr) (numKeywords : Nat)
  | other
deriving Repr

/-- Binary operators of augmented assignment; only `Add` is special-cased. -/
inductive Operator where
  | Add
  | Sub
  | Mult
deriving DecidableEq, Repr

/-- Mirrors `DunderAllEntry::is_all`: is this expression the bare name `__all__`. -/
def DunderAllEntry.is_all : Expr → Bool
  | .name _ id => id == dunderALL
  | _ => false

/-- Mirrors `DunderAllEntry::as_item`: only a string literal parses, to an
add-name operation. -/
def DunderAllEntry.as_item : Expr → Option DunderAllEntry
  | .stringLit r v => some (DunderAllEntry.Name r v)
  | _ => none

/-- Mirrors `DunderAllEntry::as_list`: list/tuple literals parse elementwise
through `as_item` dropping failures; `m.__all__` parses to one add-module
operation; anything else parses to nothing. -/
def DunderAllEntry.as_list : Expr → List DunderAllEntry
  | .list elts => elts.filterMap DunderAllEntry.as_item
  | .tuple elts => elts.filterMap DunderAllEntry.as_item
  | .attribute (.name r id) attr =>
      if attr == dunderALL then [DunderAllEntry.Module r id] else []
  | _ => []

/-- Top-level statements, restricted to the shapes the claims exercise.
Statement shapes the source handles via the same code paths but the claims
never touch (`with`, `match`, `try`, `while`, annotated assignment,
type alias) are represented by `passStmt`, the catch-all. -/
inductive Stmt where
  | importStmt (names : List ImportAlias)
  | importFrom (level : Nat) (module : Option String) (names : List ImportAlias)
      (range : TextRange)
  | classDef (name : Identifier) (body : List Stmt)
  | functionDef (name : Identifier) (body : List Stmt)
  | assign (targets : List Expr) (value : Expr)
  | augAssign (target : Expr) (op : Operator) (value : Expr)
  | exprStmt (value : Expr)
  | forStmt (target : Expr) (body : List Stmt) (orelse : List Stmt)
  | ifStmt (branches : List (Option Expr × List Stmt))
  | passStmt
deriving Repr

/-- The output table, mirroring `Definitions`: the name table is an
insertion-ordered association list (the `SmallMap`), as is the
wildcard-import set; `dunder_all` is the export log in append order. -/
structure Definitions where
  definitions : List (String × TextRange × DefinitionStyle × Nat) := []
  import_all : List (String × TextRange) := []
  dunder_all : List DunderAllEntry := []
deriving DecidableEq, Repr, Inhabited

/-- Lookup in the name table (first entry with the key, as in `SmallMap`). -/
def lookupDef (l : List (String × TextRange × DefinitionStyle × Nat))
    (x : String) : Option (TextRange × DefinitionStyle × Nat) :=
  match l with
  | [] => none
  | e :: rest => if e.1 = x then some e.2 else lookupDef rest x

/-- Lookup in the wildcard-import set. -/
def lookupIA (l : List (String × TextRange)) (m : String) : Option TextRange :=
  match l with
  | [] => none
  | e :: rest => if e.1 = m then some e.2 else lookupIA rest m

/-- Mirrors the `Entry` update of `DefinitionsBuilder::add_name`: an occupied
slot keeps its range, lowers the style with `cmp::min` and bumps the count;
a vacant slot is inserted at the end with count 1. -/
def addNameEntry (l : List (String × TextRange × DefinitionStyle × Nat))
    (x : String) (range : TextRange) (style : DefinitionStyle) :
    List (String × TextRange × DefinitionStyle × Nat) :=
  match l with
  | [] => [(x, range, style, 1)]
  | e :: rest =>
      if e.1 = x then (e.1, e.2.1, styleMin e.2.2.1 style, e.2.2.2 + 1) :: rest
      else e :: addNameEntry rest x range style

/-- Mirrors `SmallMap::insert` on the wildcard-import set: an existing key
keeps its position but its value is overwritten; a new key appends. -/
def insertImportAll (l : List (String × TextRange)) (m : String)
    (r : TextRange) : List (String × TextRange) :=
  match l with
  | [] => [(m, r)]
  | e :: rest =>
      if e.1 = m then (e.1, r) :: rest else e :: insertImportAll rest m r

/-- Mirrors `DefinitionsBuilder::add_name` on the whole table. -/
def add_name (d : Definitions) (x : String) (range : TextRange)
    (style : DefinitionStyle) : Definitions :=
  { d with definitions := addNameEntry d.definitions x range style }

/-- Mirrors `DefinitionsBuilder::add_identifier`. -/
def add_identifier (d : Definitions) (x : Identifier)
    (style : DefinitionStyle) : Definitions :=
  add_name d x.id x.range style

mutual

/-- Modelled from the spec: `Ast::expr_lvalue` (the generic lvalue visitor,
whose source is not part of this repository slice) yields every name in
binding position of an assignment target; names inside list/tuple targets
are bindings, attribute and subscript targets are not. -/
def lvalueNames : Expr → List (TextRange × String)
  | .name r id => [(r, id)]
  | .tuple elts => lvalueNamesList elts
  | .list elts => lvalueNamesList elts
  | _ => []

/-- List version of `lvalueNames`, for the elements of tuple/list targets. -/
def lvalueNamesList : List Expr → List (TextRange × String)
  | [] => []
  | e :: rest => lvalueNames e ++ lvalueNamesList rest

end

/-- Mirrors `DefinitionsBuilder::expr_lvalue`: each lvalue name becomes a
`Local` binding. -/
def expr_lvalue (d : Definitions) (e : Expr) : Definitions :=
  (lvalueNames e).foldl (fun d rn => add_name d rn.2 rn.1 DefinitionStyle.Local) d

/-- Mirrors `ModuleName::first_component` (module_name.rs is outside this
slice; the behaviour is fixed by the spec: a bare `import pkg.sub` binds the
top-level package component only). -/
def first_component (s : String) : String :=
  String.mk (s.data.takeWhile (fun c => c ≠ dotChar))

/-- The builder context: the owning module, the package-initializer flag,
and the two read-only capabilities of §6 — the three-valued condition
evaluator (`Config::evaluate_bool_opt`, config.rs is outside this slice)
and the relative-module resolver (`ModuleName::new_maybe_relative`,
module_name.rs is outside this slice). -/
structure Ctx where
  module_name : String
  is_init : Bool
  evalBool : Option Expr → Option Bool
  resolve : String → Bool → Nat → Option String → Option String

namespace DefinitionsBuilder

/-- Processing of one `ImportFrom` alias clause, mirroring the loop body of
the `Stmt::ImportFrom` arm of `DefinitionsBuilder::stmt`. -/
def fromClause (c : Ctx) (level : Nat) (module : Option String)
    (range : TextRange) (d : Definitions) (a : ImportAlias) : Definitions :=
  if a.name.id = starName then
    match c.resolve c.module_name c.is_init level module with
    | some m => { d with import_all := insertImportAll d.import_all m a.name.range }
    | none => d
  else
    let style :=
      if a.asname.map Identifier.id = some a.name.id then DefinitionStyle.ImportAsEq
      else if a.asname.isSome then DefinitionStyle.ImportAs
      else DefinitionStyle.Import
    let d1 := add_identifier d (a.asname.getD a.name) style
    if style = DefinitionStyle.ImportAsEq ∧ a.name.id = dunderALL then
      match c.resolve c.module_name c.is_init level module with
      | some m => { d1 with dunder_all := [DunderAllEntry.Module range m] }
      | none => d1
    else d1

/-- Processing of one `Import` alias clause, mirroring the loop body of the
`Stmt::Import` arm of `DefinitionsBuilder::stmt`. -/
def importClause (d : Definitions) (a : ImportAlias) : Definitions :=
  match a.asname with
  | none =>
      add_name d (first_component a.name.id) a.name.range DefinitionStyle.ImportModule
  | some al =>
      add_identifier d al
        (if al.id = a.name.id then DefinitionStyle.ImportAsEq
         else DefinitionStyle.ImportAs)

/-- Processing of one assignment target, mirroring the loop body of the
`Stmt::Assign` arm: record lvalue bindings, and when the target is
`__all__` replace the whole export log by the parse of the value. -/
def assignTarget (value : Expr) (d : Definitions) (t : Expr) : Definitions :=
  let d1 := expr_lvalue d t
  if DunderAllEntry.is_all t then
    { d1 with dunder_all := DunderAllEntry.as_list value }
  else d1

/-- Handling of an expression statement, mirroring the `Stmt::Expr` arm of
`DefinitionsBuilder::stmt`: only a call `__all__.<attr>(..)` with exactly
one positional argument and no keyword arguments is recognized, with
`extend`, `append` and `remove` as the known methods. -/
def exprEffect (d : Definitions) (e : Expr) : Definitions :=
  match e with
  | .call (.attribute recv attr) args numKeywords =>
      if DunderAllEntry.is_all recv ∧ args.length + numKeywords = 1 ∧
          numKeywords = 0 then
        match args with
        | [arg] =>
            if attr = "extend" then
              { d with dunder_all := d.dunder_all ++ DunderAllEntry.as_list arg }
            else if attr = "append" then
              { d with dunder_all := d.dunder_all ++ (DunderAllEntry.as_item arg).toList }
            else if attr = "remove" then
              match DunderAllEntry.as_item arg with
              | some (DunderAllEntry.Name r n) =>
                  { d with dunder_all := d.dunder_all ++ [DunderAllEntry.Remove r n] }
              | _ => d
            else d
        | _ => d
      else d
  | _ => d

mutual

/-- Mirrors `DefinitionsBuilder::stmt`.  `ClassDef`, `FunctionDef` and `If`
return without generic recursion; the `If` arm walks `Ast::if_branches`
with the three-valued evaluator; other handled shapes have no nested
statements except `for`, whose body and orelse the generic
`Visitors::visit_stmt` recursion (modelled from the spec, visitors.rs is
outside this slice) walks. -/
def stmt (c : Ctx) (d : Definitions) : Stmt → Definitions
  | .importStmt names => names.foldl importClause d
  | .importFrom level module names range =>
      names.foldl (fromClause c level module range) d
  | .classDef name _ => add_identifier d name DefinitionStyle.Local
  | .functionDef name _ => add_identifier d name DefinitionStyle.Local
  | .assign targets value => targets.foldl (assignTarget value) d
  | .augAssign target op value =>
      if DunderAllEntry.is_all target ∧ op = Operator.Add then
        { d with dunder_all := d.dunder_all ++ DunderAllEntry.as_list value }
      else expr_lvalue d target
  | .exprStmt e => exprEffect d e
  | .forStmt target body orelse =>
      let d1 := expr_lvalue d target
      stmts c (stmts c d1 body) orelse
  | .ifStmt bs => branches c d bs
  | .passStmt => d

/-- Mirrors `DefinitionsBuilder::stmts`: fold the walker over a statement
sequence in source order. -/
def stmts (c : Ctx) (d : Definitions) : List Stmt → Definitions
  | [] => d
  | s :: rest => stmts c (stmt c d s) rest

/-- Mirrors the branch loop of the `Stmt::If` arm: a branch whose guard is
not definitely false is visited; a definitely-true guard breaks the loop. -/
def branches (c : Ctx) (d : Definitions) :
    List (Option Expr × List Stmt) → Definitions
  | [] => d
  | (test, body) :: rest =>
      let b := c.evalBool test
      let d1 := if b ≠ some false then stmts c d body else d
      if b = some true then d1 else branches c d1 rest

end

end DefinitionsBuilder

/-- Mirrors `Definitions::new`: run the builder over the module body from
the empty table. -/
def Definitions.new (c : Ctx) (body : List Stmt) : Definitions :=
  DefinitionsBuilder.stmts c {} body

/-- Module style, mirroring `ModuleStyle` (module_info.rs is outside this
slice; the spec calls `Executable` script-style and `Interface`
library-style). -/
inductive ModuleStyle where
  | Executable
  | Interface
deriving DecidableEq, Repr

/-- Mirrors `Definitions::inject_builtins`: ensure an implicit wildcard
entry for `builtins` without overwriting an explicit entry. -/
def Definitions.inject_builtins (d : Definitions) : Definitions :=
  if (lookupIA d.import_all ("builtins")).isSome then d
  else { d with import_all := d.import_all ++ [("builtins", default)] }

/-- The add-name operations appended by `ensure_dunder_all`, mirroring its
second loop: one operation per non-underscore name, restricted for
non-executable modules to the `Local` and `ImportAsEq` styles. -/
def dunderAllNameOps (style : ModuleStyle)
    (l : List (String × TextRange × DefinitionStyle × Nat)) :
    List DunderAllEntry :=
  l.filterMap (fun e =>
    if ¬ startsWithUnderscore e.1 ∧
        (style = ModuleStyle.Executable ∨ e.2.2.1 = DefinitionStyle.Local ∨
          e.2.2.1 = DefinitionStyle.ImportAsEq)
    then some (DunderAllEntry.Name e.2.1 e.1) else none)

/-- Mirrors `Definitions::ensure_dunder_all`: do nothing when `__all__` is
a key of the name table; otherwise, for an executable module append an
add-module operation per wildcard import, then for both styles append an
add-name operation per non-underscore name (restricted to `Local` and
`ImportAsEq` styles for an interface module). -/
def Definitions.ensure_dunder_all (d : Definitions) (style : ModuleStyle) :
    Definitions :=
  if (lookupDef d.definitions dunderALL).isSome then d
  else
    { d with dunder_all :=
        (if style = ModuleStyle.Executable then
          d.dunder_all ++ d.import_all.map (fun e => DunderAllEntry.Module e.2 e.1)
        else d.dunder_all) ++ dunderAllNameOps style d.definitions }

/-- A context whose resolver always fails and whose condition evaluator
always answers unknown; used for concrete runs that exercise neither. -/
def cxOpaque : Ctx :=
  { module_name := "main", is_init := false,
    evalBool := fun _ => none,
    resolve := fun _ _ _ _ => none }

/-- A context whose resolver returns the base module name unchanged
(absolute imports resolve to themselves), evaluator unknown. -/
def cxBase : Ctx :=
  { module_name := "main", is_init := false,
    evalBool := fun _ => none,
    resolve := fun _ _ _ b => b }

/-- A context whose evaluator answers definitely-true on the name `T`,
definitely-false on the name `F`, unknown otherwise. -/
def cxEval : Ctx :=
  { module_name := "main", is_init := false,
    evalBool := fun t =>
      match t with
      | some (.name _ id) =>
          if id = ("T") then some true
          else if id = ("F") then some false
          else none
      | _ => none,
    resolve := fun _ _ _ b => b }

/-- A one-entry name table holding `b` bound once with style `ImportAs`. -/
def dC1 : Definitions :=
  { definitions := [(("b"), ⟨2, 2⟩, DefinitionStyle.ImportAs, 1)] }

/-- Module binding the name `b` once as `ImportAs` (`from m import c as b`)
and once as `ImportAsEq` (`from m import b as b`). -/
def progC1 : List Stmt :=
  [ Stmt.importFrom 0 (some ("m")) [⟨⟨"c", ⟨2, 1⟩⟩, some ⟨"b", ⟨2, 2⟩⟩⟩] ⟨2, 0⟩,
    Stmt.importFrom 0 (some ("m")) [⟨⟨"b", ⟨3, 1⟩⟩, some ⟨"b", ⟨3, 2⟩⟩⟩] ⟨3, 0⟩ ]

/-- Module performing `from foo import *` twice, at distinct locations. -/
def progC3 : List Stmt :=
  [ Stmt.importFrom 0 (some ("foo")) [⟨⟨"*", ⟨1, 1⟩⟩, none⟩] ⟨1, 0⟩,
    Stmt.importFrom 0 (some ("foo")) [⟨⟨"*", ⟨5, 6⟩⟩, none⟩] ⟨5, 0⟩ ]

/-- Module with a local `x = ...` and an `__all__.append('a')` call but no
binding of `__all__` itself. -/
def progC5 : List Stmt :=
  [ Stmt.assign [Expr.name ⟨1, 0⟩ ("x")] Expr.other,
    Stmt.exprStmt (Expr.call (Expr.attribute (Expr.name ⟨2, 0⟩ dunderALL) ("append"))
      [Expr.stringLit ⟨2, 1⟩ ("a")] 0) ]

/-- A one-entry name table holding `__all__` bound once with style `Import`. -/
def dC9 : Definitions :=
  { definitions := [((dunderALL), ⟨4, 0⟩, DefinitionStyle.Import, 1)] }

theorem lookupDef_addNameEntry_absent
    (l : List (String × TextRange × DefinitionStyle × Nat)) (x : String)
    (r : TextRange) (s : DefinitionStyle) (h : lookupDef l x = none) :
    lookupDef (addNameEntry l x r s) x = some (r, s, 1) := by
  induction l with
  | nil => simp [addNameEntry, lookupDef]
  | cons e rest ih =>
      by_cases he : e.1 = x
      · simp [lookupDef, he] at h
      · rw [lookupDef, if_neg he] at h
        rw [addNameEntry, if_neg he, lookupDef, if_neg he]
        exact ih h

theorem lookupDef_addNameEntry_present
    (l : List (String × TextRange × DefinitionStyle × Nat)) (x : String)
    (r : TextRange) (s : DefinitionStyle) (r0 : TextRange) (s0 : DefinitionStyle)
    (n : Nat) (h : lookupDef l x = some (r0, s0, n)) :
    lookupDef (addNameEntry l x r s) x = some (r0, styleMin s0 s, n + 1) := by
  induction l with
  | nil => simp [lookupDef] at h
  | cons e rest ih =>
      obtain ⟨e1, er, es, en⟩ := e
      by_cases he : e1 = x
      · subst he
        simp only [lookupDef, if_true, eq_self_iff_true, Option.some_inj,
          Prod.mk.injEq] at h
        obtain ⟨h1, h2, h3⟩ := h
        subst h1
        subst h2
        subst h3
        simp [addNameEntry, lookupDef]
      · simp only [lookupDef, he, if_false, ite_false] at h
        simp only [addNameEntry, he, if_false, ite_false, lookupDef]
        exact ih h

theorem lookupIA_insertImportAll (l : List (String × TextRange)) (m : String)
    (r : TextRange) : lookupIA (insertImportAll l m r) m = some r := by
  induction l with
  | nil => simp [insertImportAll, lookupIA]
  | cons e rest ih =>
      by_cases he : e.1 = m
      · rw [insertImportAll, if_pos he, lookupIA, if_pos he]
      · rw [insertImportAll, if_neg he, lookupIA, if_neg he]
        exact ih

theorem countP_insertImportAll (l : List (String × TextRange)) (m : String)
    (r : TextRange) :
    (insertImportAll l m r).countP (fun e => e.1 == m) =
      max (l.countP (fun e => e.1 == m)) 1 := by
  induction l with
  | nil => simp [insertImportAll, List.countP_cons]
  | cons e rest ih =>
      by_cases he : e.1 = m
      · rw [insertImportAll, if_pos he]
        simp [List.countP_cons, he]
      · rw [insertImportAll, if_neg he]
        simp only [List.countP_cons, ih]
        simp [he]

theorem styleMin_local (s : DefinitionStyle) :
    styleMin s DefinitionStyle.Local = DefinitionStyle.Local := by
  cases s <;> rfl

/-- C1: the definition-style precedence claimed by the spec puts
`ImportAsEq` below `ImportAs`; the code's derived order is declaration
order, in which `ImportAs` ranks below `ImportAsEq`.  Binding `b` once as
`ImportAs` and once as `ImportAsEq` therefore records `ImportAs`, not the
`ImportAsEq` the claim predicts, while the count still becomes 2. -/
theorem C1_counterexample :
    lookupDef (Definitions.new cxOpaque progC1).definitions ("b") =
      some (⟨2, 2⟩, DefinitionStyle.ImportAs, 2) ∧
    DefinitionStyle.ImportAs ≠ DefinitionStyle.ImportAsEq := by decide

/-- C1 (amended): the five-valued total order is
`Local < ImportAs < ImportAsEq < Import < ImportModule` (the declared rank
is strictly increasing in that sequence), so a name bound once as
`ImportAs` and once as `ImportAsEq` (either order) records `ImportAs`; on
every repeated binding the recorded style becomes the minimum of the
existing and new style under this order, the kept range is the existing
one, and the occurrence count increments by 1; a first binding inserts
with count 1. -/
theorem C1_amended (d : Definitions) (x : String) (r : TextRange)
    (s : DefinitionStyle) :
    (DefinitionStyle.rank DefinitionStyle.Local <
        DefinitionStyle.rank DefinitionStyle.ImportAs ∧
      DefinitionStyle.rank DefinitionStyle.ImportAs <
        DefinitionStyle.rank DefinitionStyle.ImportAsEq ∧
      DefinitionStyle.rank DefinitionStyle.ImportAsEq <
        DefinitionStyle.rank DefinitionStyle.Import ∧
      DefinitionStyle.rank DefinitionStyle.Import <
        DefinitionStyle.rank DefinitionStyle.ImportModule) ∧
    styleMin DefinitionStyle.ImportAs DefinitionStyle.ImportAsEq =
      DefinitionStyle.ImportAs ∧
    styleMin DefinitionStyle.ImportAsEq DefinitionStyle.ImportAs =
      DefinitionStyle.ImportAs ∧
    (lookupDef d.definitions x = none →
      lookupDef (add_name d x r s).definitions x = some (r, s, 1)) ∧
    (∀ r0 s0 n, lookupDef d.definitions x = some (r0, s0, n) →
      lookupDef (add_name d x r s).definitions x =
        some (r0, styleMin s0 s, n + 1)) := by
  refine ⟨by decide, by decide, by decide, ?_, ?_⟩
  · intro h
    exact lookupDef_addNameEntry_absent d.definitions x r s h
  · intro r0 s0 n h
    exact lookupDef_addNameEntry_present d.definitions x r s r0 s0 n h

theorem C1_amended_witness :
    lookupDef (add_name {} ("b") ⟨2, 2⟩ DefinitionStyle.ImportAs).definitions
        ("b") = some (⟨2, 2⟩, DefinitionStyle.ImportAs, 1) ∧
    lookupDef (add_name dC1 ("b") ⟨3, 2⟩ DefinitionStyle.ImportAsEq).definitions
        ("b") = some (⟨2, 2⟩,
          styleMin DefinitionStyle.ImportAs DefinitionStyle.ImportAsEq, 2) :=
  ⟨(C1_amended {} ("b") ⟨2, 2⟩ DefinitionStyle.ImportAs).2.2.2.1 (by decide),
   (C1_amended dC1 ("b") ⟨3, 2⟩ DefinitionStyle.ImportAsEq).2.2.2.2
     ⟨2, 2⟩ DefinitionStyle.ImportAs 1 (by decide)⟩

/-- C2: the export log is built in source-statement order (statement
sequencing threads the table left to right), a direct assignment
`__all__ = e` replaces the whole log with the parse of `e` (a reset, not
an append), `__all__ += e` with the addition operator appends the parse of
`e`, `__all__.extend(e)` and `__all__.append(e)` with exactly one
positional argument and no keyword arguments append (as list and item
parse respectively), and `__all__.remove('v')` appends a remove-name
operation for `v` instead of deleting anything from the log. -/
theorem C2_export_log (c : Ctx) (d : Definitions) (r rs : TextRange)
    (e : Expr) (v : String) (s : Stmt) (rest : List Stmt) :
    (DefinitionsBuilder.stmt c d (Stmt.assign [Expr.name r dunderALL] e)).dunder_all =
      DunderAllEntry.as_list e ∧
    (DefinitionsBuilder.stmt c d
        (Stmt.augAssign (Expr.name r dunderALL) Operator.Add e)).dunder_all =
      d.dunder_all ++ DunderAllEntry.as_list e ∧
    (DefinitionsBuilder.stmt c d (Stmt.exprStmt
        (Expr.call (Expr.attribute (Expr.name r dunderALL) ("extend")) [e] 0))).dunder_all =
      d.dunder_all ++ DunderAllEntry.as_list e ∧
    (DefinitionsBuilder.stmt c d (Stmt.exprStmt
        (Expr.call (Expr.attribute (Expr.name r dunderALL) ("append")) [e] 0))).dunder_all =
      d.dunder_all ++ (DunderAllEntry.as_item e).toList ∧
    (DefinitionsBuilder.stmt c d (Stmt.exprStmt
        (Expr.call (Expr.attribute (Expr.name r dunderALL) ("remove"))
          [Expr.stringLit rs v] 0))).dunder_all =
      d.dunder_all ++ [DunderAllEntry.Remove rs v] ∧
    DefinitionsBuilder.stmts c d (s :: rest) =
      DefinitionsBuilder.stmts c (DefinitionsBuilder.stmt c d s) rest :=
  ⟨rfl, rfl, rfl, rfl, rfl, rfl⟩

/-- C3 counterexample: two `from foo import *` statements, the `*` token at
⟨1,1⟩ and then at ⟨5,6⟩; the wildcard set ends with a single entry whose
recorded location is the second (last) statement's, not the first's as the
claim states — `SmallMap::insert` overwrites the stored range. -/
theorem C3_counterexample :
    (Definitions.new cxBase progC3).import_all = [(("foo"), ⟨5, 6⟩)] ∧
    (⟨5, 6⟩ : TextRange) ≠ ⟨1, 1⟩ := by decide

/-- C3 (amended): repeated wildcard imports of the same resolved module
leave exactly one entry for it (insertion collapses on the key), but the
recorded source location is that of the last such statement, not the
first: insertion overwrites the stored location. -/
theorem C3_amended (c : Ctx) (d : Definitions) (lvl : Nat)
    (base : Option String) (M : String) (nr rs : TextRange)
    (hres : c.resolve c.module_name c.is_init lvl base = some M)
    (hcount : d.import_all.countP (fun e => e.1 == M) ≤ 1) :
    ((DefinitionsBuilder.stmt c d
        (Stmt.importFrom lvl base [⟨⟨starName, nr⟩, none⟩] rs)).import_all.countP
      (fun e => e.1 == M) = 1) ∧
    lookupIA (DefinitionsBuilder.stmt c d
        (Stmt.importFrom lvl base [⟨⟨starName, nr⟩, none⟩] rs)).import_all M =
      some nr := by
  have h1 : DefinitionsBuilder.stmt c d
      (Stmt.importFrom lvl base [⟨⟨starName, nr⟩, none⟩] rs) =
      { d with import_all := insertImportAll d.import_all M nr } := by
    show DefinitionsBuilder.fromClause c lvl base rs d ⟨⟨starName, nr⟩, none⟩ = _
    unfold DefinitionsBuilder.fromClause
    rw [if_pos rfl, hres]
  rw [h1]
  refine ⟨?_, lookupIA_insertImportAll d.import_all M nr⟩
  rw [countP_insertImportAll]
  omega

theorem C3_amended_witness :
    ((DefinitionsBuilder.stmt cxBase {}
        (Stmt.importFrom 0 (some ("foo")) [⟨⟨starName, ⟨1, 1⟩⟩, none⟩] ⟨1, 0⟩)).import_all.countP
      (fun e => e.1 == ("foo")) = 1) ∧
    lookupIA (DefinitionsBuilder.stmt cxBase {}
        (Stmt.importFrom 0 (some ("foo")) [⟨⟨starName, ⟨1, 1⟩⟩, none⟩] ⟨1, 0⟩)).import_all
      ("foo") = some ⟨1, 1⟩ :=
  C3_amended cxBase {} 0 (some ("foo")) ("foo") ⟨1, 1⟩ ⟨1, 0⟩ (by decide) (by decide)

/-- C4: branches of an `if`/`elif`/`else` chain are processed in source
order; a branch whose guard evaluates definitely-false contributes nothing
and processing moves to the next branch; a branch whose guard evaluates
definitely-true has its body visited and halts the chain (no later branch
is visited); a branch whose guard is unknown has its body visited and
processing continues with the next branch, so all-unknown guards union
every branch's bindings. -/
theorem C4_conditional (c : Ctx) (d : Definitions) (t : Option Expr)
    (body : List Stmt) (rest : List (Option Expr × List Stmt)) :
    DefinitionsBuilder.stmt c d (Stmt.ifStmt ((t, body) :: rest)) =
      DefinitionsBuilder.branches c d ((t, body) :: rest) ∧
    (c.evalBool t = some false →
      DefinitionsBuilder.branches c d ((t, body) :: rest) =
        DefinitionsBuilder.branches c d rest) ∧
    (c.evalBool t = some true →
      DefinitionsBuilder.branches c d ((t, body) :: rest) =
        DefinitionsBuilder.stmts c d body) ∧
    (c.evalBool t = none →
      DefinitionsBuilder.branches c d ((t, body) :: rest) =
        DefinitionsBuilder.branches c (DefinitionsBuilder.stmts c d body) rest) := by
  refine ⟨rfl, ?_, ?_, ?_⟩ <;> intro h <;> simp [DefinitionsBuilder.branches, h]

theorem C4_conditional_witness :
    (cxEval.evalBool (some (Expr.name ⟨1, 1⟩ ("F"))) = some false ∧
      DefinitionsBuilder.branches cxEval {}
          [(some (Expr.name ⟨1, 1⟩ ("F")), [Stmt.passStmt]), (none, [])] =
        DefinitionsBuilder.branches cxEval {} [(none, [])]) ∧
    (cxEval.evalBool (some (Expr.name ⟨1, 1⟩ ("T"))) = some true ∧
      DefinitionsBuilder.branches cxEval {}
          [(some (Expr.name ⟨1, 1⟩ ("T")), [Stmt.passStmt]), (none, [])] =
        DefinitionsBuilder.stmts cxEval {} [Stmt.passStmt]) ∧
    (cxEval.evalBool (some (Expr.name ⟨1, 1⟩ ("U"))) = none ∧
      DefinitionsBuilder.branches cxEval {}
          [(some (Expr.name ⟨1, 1⟩ ("U")), [Stmt.passStmt]), (none, [])] =
        DefinitionsBuilder.branches cxEval
          (DefinitionsBuilder.stmts cxEval {} [Stmt.passStmt]) [(none, [])]) :=
  ⟨⟨by decide, (C4_conditional cxEval {} (some (Expr.name ⟨1, 1⟩ ("F")))
      [Stmt.passStmt] [(none, [])]).2.1 (by decide)⟩,
   ⟨by decide, (C4_conditional cxEval {} (some (Expr.name ⟨1, 1⟩ ("T")))
      [Stmt.passStmt] [(none, [])]).2.2.1 (by decide)⟩,
   ⟨by decide, (C4_conditional cxEval {} (some (Expr.name ⟨1, 1⟩ ("U")))
      [Stmt.passStmt] [(none, [])]).2.2.2 (by decide)⟩⟩

/-- C5 counterexample: in a module holding `x = ...` and
`__all__.append('a')` the export log already holds an explicit entry
(`Name 'a'`), yet because the name `__all__` itself was never bound the
synthesis still runs on the script-style module and appends `Name x` —
refuting the claim that it runs only when no explicit export-list entries
exist. -/
theorem C5_counterexample :
    (Definitions.new cxOpaque progC5).dunder_all =
      [DunderAllEntry.Name ⟨2, 1⟩ ("a")] ∧
    ((Definitions.new cxOpaque progC5).ensure_dunder_all
        ModuleStyle.Executable).dunder_all =
      [DunderAllEntry.Name ⟨2, 1⟩ ("a"), DunderAllEntry.Name ⟨1, 0⟩ ("x")] := by
  decide

/-- C7: a class or function definition statement adds exactly the binding
of its own name with style `Local` and nothing else — the result does not
depend on the body at all, so the builder never recurses into it and no
name bound solely inside a nested class or function body can reach the
module-level table. -/
theorem C7_scope (c : Ctx) (d : Definitions) (nm : Identifier)
    (body : List Stmt) :
    DefinitionsBuilder.stmt c d (Stmt.classDef nm body) =
      add_identifier d nm DefinitionStyle.Local ∧
    DefinitionsBuilder.stmt c d (Stmt.functionDef nm body) =
      add_identifier d nm DefinitionStyle.Local :=
  ⟨rfl, rfl⟩

theorem filterMapNameOps (p : (String × TextRange × DefinitionStyle × Nat) → Prop)
    [DecidablePred p] (q : (String × TextRange × DefinitionStyle × Nat) → Bool)
    (hpq : ∀ e, p e ↔ q e = true)
    (l : List (String × TextRange × DefinitionStyle × Nat)) :
    l.filterMap (fun e => if p e then some (DunderAllEntry.Name e.2.1 e.1) else none) =
    (l.filter q).map (fun e => DunderAllEntry.Name e.2.1 e.1) := by
  induction l with
  | nil => rfl
  | cons e rest ih =>
      by_cases h : p e
      · have step : List.filterMap
            (fun x => if p x then some (DunderAllEntry.Name x.2.1 x.1) else none)
            (e :: rest) =
            DunderAllEntry.Name e.2.1 e.1 :: List.filterMap
              (fun x => if p x then some (DunderAllEntry.Name x.2.1 x.1) else none)
              rest :=
          List.filterMap_cons_some (by simp [h])
        rw [step, List.filter_cons_of_pos ((hpq e).mp h), List.map_cons, ih]
      · have step : List.filterMap
            (fun x => if p x then some (DunderAllEntry.Name x.2.1 x.1) else none)
            (e :: rest) =
            List.filterMap
              (fun x => if p x then some (DunderAllEntry.Name x.2.1 x.1) else none)
              rest :=
          List.filterMap_cons_none (by simp [h])
        rw [step, List.filter_cons_of_neg (fun hq => h ((hpq e).mpr hq)), ih]

theorem execNameOps (l : List (String × TextRange × DefinitionStyle × Nat)) :
    dunderAllNameOps ModuleStyle.Executable l =
    (l.filter (fun e => !startsWithUnderscore e.1)).map
      (fun e => DunderAllEntry.Name e.2.1 e.1) := by
  unfold dunderAllNameOps
  refine filterMapNameOps _ _ ?_ l
  intro e
  by_cases h : startsWithUnderscore e.1 <;> simp [h]

theorem interNameOps (l : List (String × TextRange × DefinitionStyle × Nat)) :
    dunderAllNameOps ModuleStyle.Interface l =
    (l.filter (fun e => !startsWithUnderscore e.1 &&
        (e.2.2.1 == DefinitionStyle.Local || e.2.2.1 == DefinitionStyle.ImportAsEq))).map
      (fun e => DunderAllEntry.Name e.2.1 e.1) := by
  unfold dunderAllNameOps
  refine filterMapNameOps _ _ ?_ l
  intro e
  by_cases h : startsWithUnderscore e.1 <;> simp [h]

/-- C5 (amended): default export synthesis runs only when the name
`__all__` is not a key of the definitions table (not: when the export log
is empty — see the counterexample).  When it runs, a script-style
(executable) module appends one add-module operation per wildcard-imported
module followed by one add-name operation per non-underscore-prefixed name
of any definition style, while a library-style (interface) module appends
no module operations and add-name operations only for non-underscore names
whose recorded style is `Local` or `ImportAsEq`. -/
theorem C5_amended (d : Definitions) (style : ModuleStyle) :
    (lookupDef d.definitions dunderALL ≠ none →
      d.ensure_dunder_all style = d) ∧
    (lookupDef d.definitions dunderALL = none →
      (d.ensure_dunder_all ModuleStyle.Executable).dunder_all =
        d.dunder_all ++
        d.import_all.map (fun e => DunderAllEntry.Module e.2 e.1) ++
        (d.definitions.filter (fun e => !startsWithUnderscore e.1)).map
          (fun e => DunderAllEntry.Name e.2.1 e.1) ∧
      (d.ensure_dunder_all ModuleStyle.Interface).dunder_all =
        d.dunder_all ++
        (d.definitions.filter (fun e => !startsWithUnderscore e.1 &&
            (e.2.2.1 == DefinitionStyle.Local ||
              e.2.2.1 == DefinitionStyle.ImportAsEq))).map
          (fun e => DunderAllEntry.Name e.2.1 e.1)) := by
  constructor
  · intro h
    unfold Definitions.ensure_dunder_all
    rw [if_pos (Option.isSome_iff_ne_none.mpr h)]
  · intro h
    have hg : (lookupDef d.definitions dunderALL).isSome = false := by
      rw [h]
      rfl
    constructor
    · unfold Definitions.ensure_dunder_all
      rw [if_neg (by simp [hg]), if_pos rfl]
      show d.dunder_all ++
          d.import_all.map (fun e => DunderAllEntry.Module e.2 e.1) ++
          dunderAllNameOps ModuleStyle.Executable d.definitions = _
      rw [execNameOps]
    · unfold Definitions.ensure_dunder_all
      rw [if_neg (by simp [hg]), if_neg (by decide)]
      show d.dunder_all ++ dunderAllNameOps ModuleStyle.Interface d.definitions = _
      rw [interNameOps]

theorem C5_amended_witness :
    (lookupDef dC9.definitions dunderALL ≠ none →
        dC9.ensure_dunder_all ModuleStyle.Executable = dC9) ∧
    ((dC1.ensure_dunder_all ModuleStyle.Executable).dunder_all =
      dC1.dunder_all ++
      dC1.import_all.map (fun e => DunderAllEntry.Module e.2 e.1) ++
      (dC1.definitions.filter (fun e => !startsWithUnderscore e.1)).map
        (fun e => DunderAllEntry.Name e.2.1 e.1)) :=
  ⟨(C5_amended dC9 ModuleStyle.Executable).1,
   ((C5_amended dC1 ModuleStyle.Executable).2 (by decide)).1⟩

/-- C6: `from M import __all__ as __all__` with `M` resolvable resets the
export log to exactly `[Module M]` (located at the statement) and records
`__all__` in the definitions table with style `ImportAsEq`; a wildcard
clause for the same module independently records `M` in the wildcard set. -/
theorem C6_reexport (c : Ctx) (d : Definitions) (lvl : Nat)
    (base : Option String) (M : String) (r1 r2 rs rr : TextRange)
    (hres : c.resolve c.module_name c.is_init lvl base = some M)
    (habs : lookupDef d.definitions dunderALL = none) :
    (DefinitionsBuilder.stmt c d
        (Stmt.importFrom lvl base [⟨⟨dunderALL, r1⟩, some ⟨dunderALL, r2⟩⟩] rs)).dunder_all =
      [DunderAllEntry.Module rs M] ∧
    lookupDef (DefinitionsBuilder.stmt c d
        (Stmt.importFrom lvl base [⟨⟨dunderALL, r1⟩, some ⟨dunderALL, r2⟩⟩] rs)).definitions
      dunderALL = some (r2, DefinitionStyle.ImportAsEq, 1) ∧
    lookupIA (DefinitionsBuilder.stmt c d
        (Stmt.importFrom lvl base [⟨⟨starName, rr⟩, none⟩] rs)).import_all M =
      some rr := by
  have key : DefinitionsBuilder.stmt c d
      (Stmt.importFrom lvl base [⟨⟨dunderALL, r1⟩, some ⟨dunderALL, r2⟩⟩] rs) =
      { add_identifier d ⟨dunderALL, r2⟩ DefinitionStyle.ImportAsEq with
        dunder_all := [DunderAllEntry.Module rs M] } := by
    show DefinitionsBuilder.fromClause c lvl base rs d
      ⟨⟨dunderALL, r1⟩, some ⟨dunderALL, r2⟩⟩ = _
    unfold DefinitionsBuilder.fromClause
    rw [hres]
    rfl
  have key2 : DefinitionsBuilder.stmt c d
      (Stmt.importFrom lvl base [⟨⟨starName, rr⟩, none⟩] rs) =
      { d with import_all := insertImportAll d.import_all M rr } := by
    show DefinitionsBuilder.fromClause c lvl base rs d ⟨⟨starName, rr⟩, none⟩ = _
    unfold DefinitionsBuilder.fromClause
    rw [hres]
    rfl
  refine ⟨by rw [key], ?_, ?_⟩
  · rw [key]
    exact lookupDef_addNameEntry_absent d.definitions dunderALL r2
      DefinitionStyle.ImportAsEq habs
  · rw [key2]
    exact lookupIA_insertImportAll d.import_all M rr

theorem C6_reexport_witness :
    (DefinitionsBuilder.stmt cxBase {}
        (Stmt.importFrom 0 (some ("m"))
          [⟨⟨dunderALL, ⟨2, 1⟩⟩, some ⟨dunderALL, ⟨2, 2⟩⟩⟩] ⟨2, 0⟩)).dunder_all =
      [DunderAllEntry.Module ⟨2, 0⟩ ("m")] ∧
    lookupDef (DefinitionsBuilder.stmt cxBase {}
        (Stmt.importFrom 0 (some ("m"))
          [⟨⟨dunderALL, ⟨2, 1⟩⟩, some ⟨dunderALL, ⟨2, 2⟩⟩⟩] ⟨2, 0⟩)).definitions
      dunderALL = some (⟨2, 2⟩, DefinitionStyle.ImportAsEq, 1) ∧
    lookupIA (DefinitionsBuilder.stmt cxBase {}
        (Stmt.importFrom 0 (some ("m"))
          [⟨⟨starName, ⟨1, 1⟩⟩, none⟩] ⟨2, 0⟩)).import_all ("m") =
      some ⟨1, 1⟩ :=
  C6_reexport cxBase {} 0 (some ("m")) ("m") ⟨2, 1⟩ ⟨2, 2⟩ ⟨2, 0⟩ ⟨1, 1⟩
    (by decide) (by decide)

/-- C8 counterexample: with a resolver that fails (relative import escaping
the root package), a *named* from-import is not dropped: `from . import x`
still adds a definitions entry for `x` with style `Import`, contradicting
the claim that a failing resolution produces no definitions entry. -/
theorem C8_counterexample :
    cxOpaque.resolve cxOpaque.module_name cxOpaque.is_init 1 none = none ∧
    (Definitions.new cxOpaque
        [Stmt.importFrom 1 none [⟨⟨"x", ⟨1, 1⟩⟩, none⟩] ⟨1, 0⟩]).definitions =
      [(("x"), ⟨1, 1⟩, DefinitionStyle.Import, 1)] := by decide

/-- C8 (amended): no operation of the subsystem raises an error, and when
relative module resolution fails only the resolution-dependent effects are
silently dropped: a wildcard from-import leaves the table entirely
unchanged (no wildcard entry, no definitions entry, no log operation), a
named from-import still binds its name (with style `Import` for the plain
form, `ImportAsEq` for the self-aliased form — whose log reset is
suppressed), and statement processing continues with the rest of the
module. -/
theorem C8_amended (c : Ctx) (d : Definitions) (lvl : Nat)
    (base : Option String) (nm : Identifier) (r1 r2 rs : TextRange)
    (s : Stmt) (rest : List Stmt)
    (hres : c.resolve c.module_name c.is_init lvl base = none)
    (hnm : nm.id ≠ starName) :
    DefinitionsBuilder.stmt c d
        (Stmt.importFrom lvl base [⟨⟨starName, r1⟩, none⟩] rs) = d ∧
    DefinitionsBuilder.stmt c d (Stmt.importFrom lvl base [⟨nm, none⟩] rs) =
      add_identifier d nm DefinitionStyle.Import ∧
    DefinitionsBuilder.stmt c d
        (Stmt.importFrom lvl base [⟨⟨dunderALL, r1⟩, some ⟨dunderALL, r2⟩⟩] rs) =
      add_identifier d ⟨dunderALL, r2⟩ DefinitionStyle.ImportAsEq ∧
    DefinitionsBuilder.stmts c d (s :: rest) =
      DefinitionsBuilder.stmts c (DefinitionsBuilder.stmt c d s) rest := by
  refine ⟨?_, ?_, ?_, rfl⟩
  · show DefinitionsBuilder.fromClause c lvl base rs d ⟨⟨starName, r1⟩, none⟩ = d
    unfold DefinitionsBuilder.fromClause
    rw [hres]
    rfl
  · show DefinitionsBuilder.fromClause c lvl base rs d ⟨nm, none⟩ =
      add_identifier d nm DefinitionStyle.Import
    simp [DefinitionsBuilder.fromClause, hnm]
  · show DefinitionsBuilder.fromClause c lvl base rs d
      ⟨⟨dunderALL, r1⟩, some ⟨dunderALL, r2⟩⟩ =
      add_identifier d ⟨dunderALL, r2⟩ DefinitionStyle.ImportAsEq
    unfold DefinitionsBuilder.fromClause
    rw [hres]
    rfl

theorem C8_amended_witness :
    DefinitionsBuilder.stmt cxOpaque {}
        (Stmt.importFrom 1 none [⟨⟨starName, ⟨1, 1⟩⟩, none⟩] ⟨1, 0⟩) = {} ∧
    DefinitionsBuilder.stmt cxOpaque {}
        (Stmt.importFrom 1 none [⟨⟨"x", ⟨1, 1⟩⟩, none⟩] ⟨1, 0⟩) =
      add_identifier {} ⟨("x"), ⟨1, 1⟩⟩ DefinitionStyle.Import ∧
    DefinitionsBuilder.stmt cxOpaque {}
        (Stmt.importFrom 1 none
          [⟨⟨dunderALL, ⟨1, 1⟩⟩, some ⟨dunderALL, ⟨1, 2⟩⟩⟩] ⟨1, 0⟩) =
      add_identifier {} ⟨dunderALL, ⟨1, 2⟩⟩ DefinitionStyle.ImportAsEq ∧
    DefinitionsBuilder.stmts cxOpaque {} (Stmt.passStmt :: [Stmt.passStmt]) =
      DefinitionsBuilder.stmts cxOpaque
        (DefinitionsBuilder.stmt cxOpaque {} Stmt.passStmt) [Stmt.passStmt] :=
  C8_amended cxOpaque {} 1 none ⟨("x"), ⟨1, 1⟩⟩ ⟨1, 1⟩ ⟨1, 2⟩ ⟨1, 0⟩
    Stmt.passStmt [Stmt.passStmt] (by decide) (by decide)

/-- C9: `__all__ += e` with the addition operator changes only the export
log — the definitions table and the wildcard set are untouched, and in
particular no entry for `__all__` appears — while `__all__ = e` both
resets the export log to the parse of `e` and records `__all__` in the
definitions table as a `Local` binding (fresh with count 1, or merged to
`Local` with the count incremented, since `Local` is the minimum style). -/
theorem C9_frame (c : Ctx) (d : Definitions) (r : TextRange) (e : Expr) :
    (DefinitionsBuilder.stmt c d
        (Stmt.augAssign (Expr.name r dunderALL) Operator.Add e)).definitions =
      d.definitions ∧
    (DefinitionsBuilder.stmt c d
        (Stmt.augAssign (Expr.name r dunderALL) Operator.Add e)).import_all =
      d.import_all ∧
    (DefinitionsBuilder.stmt c d
        (Stmt.augAssign (Expr.name r dunderALL) Operator.Add e)).dunder_all =
      d.dunder_all ++ DunderAllEntry.as_list e ∧
    (DefinitionsBuilder.stmt c d (Stmt.assign [Expr.name r dunderALL] e)).dunder_all =
      DunderAllEntry.as_list e ∧
    (lookupDef d.definitions dunderALL = none →
      lookupDef (DefinitionsBuilder.stmt c d
          (Stmt.assign [Expr.name r dunderALL] e)).definitions dunderALL =
        some (r, DefinitionStyle.Local, 1)) ∧
    (∀ r0 s0 n, lookupDef d.definitions dunderALL = some (r0, s0, n) →
      lookupDef (DefinitionsBuilder.stmt c d
          (Stmt.assign [Expr.name r dunderALL] e)).definitions dunderALL =
        some (r0, DefinitionStyle.Local, n + 1)) := by
  have hdef : (DefinitionsBuilder.stmt c d
      (Stmt.assign [Expr.name r dunderALL] e)).definitions =
      addNameEntry d.definitions dunderALL r DefinitionStyle.Local := rfl
  refine ⟨rfl, rfl, rfl, rfl, ?_, ?_⟩
  · intro h
    rw [hdef]
    exact lookupDef_addNameEntry_absent d.definitions dunderALL r
      DefinitionStyle.Local h
  · intro r0 s0 n h
    rw [hdef]
    have h2 := lookupDef_addNameEntry_present d.definitions dunderALL r
      DefinitionStyle.Local r0 s0 n h
    rw [styleMin_local] at h2
    exact h2

theorem C9_frame_witness :
    lookupDef (DefinitionsBuilder.stmt cxOpaque {}
        (Stmt.assign [Expr.name ⟨4, 0⟩ dunderALL] Expr.other)).definitions
      dunderALL = some (⟨4, 0⟩, DefinitionStyle.Local, 1) ∧
    lookupDef (DefinitionsBuilder.stmt cxOpaque dC9
        (Stmt.assign [Expr.name ⟨5, 0⟩ dunderALL] Expr.other)).definitions
      dunderALL = some (⟨4, 0⟩, DefinitionStyle.Local, 2) :=
  ⟨(C9_frame cxOpaque {} ⟨4, 0⟩ Expr.other).2.2.2.2.1 (by decide),
   (C9_frame cxOpaque dC9 ⟨5, 0⟩ Expr.other).2.2.2.2.2
     ⟨4, 0⟩ DefinitionStyle.Import 1 (by decide)⟩

/-- C10: a from-import of `__all__` that is not aliased to itself never
touches the export log or the wildcard set: the plain form
`from M import __all__` only adds a definitions entry for `__all__` with
style `Import`, and the aliased form `from M import __all__ as other`
(with `other ≠ __all__`) only adds an entry for `other` with style
`ImportAs`; the module-delegation reset fires for neither, whatever the
resolver answers. -/
theorem C10_no_reset (c : Ctx) (d : Definitions) (lvl : Nat)
    (base : Option String) (otherName : String) (r1 r2 rs : TextRange)
    (hother : otherName ≠ dunderALL)
    (habs1 : lookupDef d.definitions dunderALL = none)
    (habs2 : lookupDef d.definitions otherName = none) :
    (DefinitionsBuilder.stmt c d
        (Stmt.importFrom lvl base [⟨⟨dunderALL, r1⟩, none⟩] rs)).dunder_all =
      d.dunder_all ∧
    (DefinitionsBuilder.stmt c d
        (Stmt.importFrom lvl base [⟨⟨dunderALL, r1⟩, none⟩] rs)).import_all =
      d.import_all ∧
    lookupDef (DefinitionsBuilder.stmt c d
        (Stmt.importFrom lvl base [⟨⟨dunderALL, r1⟩, none⟩] rs)).definitions
      dunderALL = some (r1, DefinitionStyle.Import, 1) ∧
    (DefinitionsBuilder.stmt c d
        (Stmt.importFrom lvl base [⟨⟨dunderALL, r1⟩, some ⟨otherName, r2⟩⟩] rs)).dunder_all =
      d.dunder_all ∧
    (DefinitionsBuilder.stmt c d
        (Stmt.importFrom lvl base [⟨⟨dunderALL, r1⟩, some ⟨otherName, r2⟩⟩] rs)).import_all =
      d.import_all ∧
    lookupDef (DefinitionsBuilder.stmt c d
        (Stmt.importFrom lvl base [⟨⟨dunderALL, r1⟩, some ⟨otherName, r2⟩⟩] rs)).definitions
      otherName = some (r2, DefinitionStyle.ImportAs, 1) := by
  have key : DefinitionsBuilder.stmt c d
      (Stmt.importFrom lvl base [⟨⟨dunderALL, r1⟩, some ⟨otherName, r2⟩⟩] rs) =
      add_identifier d ⟨otherName, r2⟩ DefinitionStyle.ImportAs := by
    show DefinitionsBuilder.fromClause c lvl base rs d
      ⟨⟨dunderALL, r1⟩, some ⟨otherName, r2⟩⟩ = _
    have hds : ¬ (dunderALL = starName) := by decide
    simp [DefinitionsBuilder.fromClause, hds, hother]
  refine ⟨rfl, rfl, ?_, ?_, ?_, ?_⟩
  · exact lookupDef_addNameEntry_absent d.definitions dunderALL r1
      DefinitionStyle.Import habs1
  · rw [key]
    rfl
  · rw [key]
    rfl
  · rw [key]
    exact lookupDef_addNameEntry_absent d.definitions otherName r2
      DefinitionStyle.ImportAs habs2

theorem C10_no_reset_witness :
    (DefinitionsBuilder.stmt cxBase {}
        (Stmt.importFrom 0 (some ("m")) [⟨⟨dunderALL, ⟨1, 1⟩⟩, none⟩] ⟨1, 0⟩)).dunder_all =
      ({} : Definitions).dunder_all ∧
    (DefinitionsBuilder.stmt cxBase {}
        (Stmt.importFrom 0 (some ("m")) [⟨⟨dunderALL, ⟨1, 1⟩⟩, none⟩] ⟨1, 0⟩)).import_all =
      ({} : Definitions).import_all ∧
    lookupDef (DefinitionsBuilder.stmt cxBase {}
        (Stmt.importFrom 0 (some ("m")) [⟨⟨dunderALL, ⟨1, 1⟩⟩, none⟩] ⟨1, 0⟩)).definitions
      dunderALL = some (⟨1, 1⟩, DefinitionStyle.Import, 1) ∧
    (DefinitionsBuilder.stmt cxBase {}
        (Stmt.importFrom 0 (some ("m"))
          [⟨⟨dunderALL, ⟨1, 1⟩⟩, some ⟨("other"), ⟨1, 2⟩⟩⟩] ⟨1, 0⟩)).dunder_all =
      ({} : Definitions).dunder_all ∧
    (DefinitionsBuilder.stmt cxBase {}
        (Stmt.importFrom 0 (some ("m"))
          [⟨⟨dunderALL, ⟨1, 1⟩⟩, some ⟨("other"), ⟨1, 2⟩⟩⟩] ⟨1, 0⟩)).import_all =
      ({} : Definitions).import_all ∧
    lookupDef (DefinitionsBuilder.stmt cxBase {}
        (Stmt.importFrom 0 (some ("m"))
          [⟨⟨dunderALL, ⟨1, 1⟩⟩, some ⟨("other"), ⟨1, 2⟩⟩⟩] ⟨1, 0⟩)).definitions
      ("other") = some (⟨1, 2⟩, DefinitionStyle.ImportAs, 1) :=
  C10_no_reset cxBase {} 0 (some ("m")) ("other") ⟨1, 1⟩ ⟨1, 2⟩ ⟨1, 0⟩
    (by decide) (by decide) (by decide)
